import Mathlib

/-!
Verification of the eo-learn core claims: the Ray futures joiner
(`core/extra/ray.py`), the `RayExecutor.run` configuration check, and the
workflow input/output tasks (`eoworkflow_tasks.py`, `utilities/other.py`).

The Python code is shallowly embedded. A Ray future is a handle with an
identity (its Python `id()`) and the value that `ray.get` returns for it.
The completion behaviour of the cluster is abstracted as a schedule: a list
whose k-th entry lists the identities of the futures that `ray.wait` reports
as done during the k-th poll cycle.
-/

namespace EOLearn

/-- A Ray future: `fid` is the Python object identity (`id(future)`) and
`value` is the result that `ray.get` returns for it. -/
structure RayFuture (α : Type) where
  fid : Nat
  value : α
deriving DecidableEq, Repr

/-- One polling loop of `join_ray_futures_iter`. Mirrors
`while futures: done, futures = ray.wait(...); for future, result in zip(done, ray.get(done)): yield map[id(future)], result`.
The schedule entry `s` stands for one bounded `ray.wait` answer: the set of
identities reported done in that cycle. Returns the emitted
`(position, value)` pairs together with the final state of the tracked
`futures` list (empty when the loop exited normally, the leftover futures
when the schedule ran out first). -/
def joinLoop (idMap : Nat → Option Nat) :
    List (List Nat) → List (RayFuture α) → List (Nat × α) × List (RayFuture α)
  | _, [] => ([], [])
  | [], f :: fs => ([], f :: fs)
  | s :: rest, f :: fs =>
      ((((f :: fs).filter (fun g => decide (g.fid ∈ s))).map
          (fun g => ((idMap g.fid).getD 0, g.value)))
        ++ (joinLoop idMap rest ((f :: fs).filter (fun g => !decide (g.fid ∈ s)))).1,
       (joinLoop idMap rest ((f :: fs).filter (fun g => !decide (g.fid ∈ s)))).2)

/-- Helper for `idToPositionMap`: the dict comprehension
`{id(future): index for index, future in enumerate(futures)}` starting the
enumeration at `n`. A later entry with the same key overwrites an earlier
one, exactly as repeated dict assignment does. -/
def idMapFrom (n : Nat) : List (RayFuture α) → Nat → Option Nat
  | [], _ => none
  | f :: fs, k =>
      match idMapFrom (n + 1) fs k with
      | some j => some j
      | none => if f.fid = k then some n else none

/-- `id_to_position_map = {id(future): index for index, future in enumerate(futures)}`. -/
def idToPositionMap (futs : List (RayFuture α)) : Nat → Option Nat :=
  idMapFrom 0 futs

/-- `join_ray_futures_iter` on a list argument, as the pure function from the
original list contents and the completion schedule to the emitted
`(position, value)` pairs. -/
def joinRayFuturesIter (sched : List (List Nat)) (futs : List (RayFuture α)) :
    List (Nat × α) :=
  (joinLoop (idToPositionMap futs) sched futs).1

/-- `join_ray_futures`: allocates `results = [None] * len(futures)` and runs
`results[position] = result` for every pair the lazy joiner emits. -/
def joinRayFutures (sched : List (List Nat)) (futs : List (RayFuture α)) :
    List (Option α) :=
  (joinRayFuturesIter sched futs).foldl (fun r p => r.set p.1 (some p.2))
    (List.replicate futs.length none)

/-- The Python argument passed as `futures`: either an actual list (whose
contents we track, so that emptying it is observable) or a value of any other
type, such as a tuple or a generator, remembered by its type name. -/
inductive FuturesArg (α : Type) where
  | pyList (l : List (RayFuture α))
  | nonList (typeName : String)
deriving DecidableEq, Repr

/-- Modelled from the spec: `_make_copy_and_empty_given`
(from `eolearn.core.utils.parallelize`, whose source file is not included)
copies the given list and empties the callers list in place, transferring
ownership to the joiner. The result pair is (the internal copy, the callers
list as the caller sees it after the call). -/
def makeCopyAndEmptyGiven (futures : List (RayFuture α)) :
    List (RayFuture α) × List (RayFuture α) :=
  (futures, [])

/-- `join_ray_futures_iter` with the caller-visible state made explicit:
first the `isinstance(futures, list)` check (a `ValueError`, modelled as
`Except.error`, leaves the argument untouched), then
`futures = _make_copy_and_empty_given(futures)`, the identity map, and the
polling loop. Returns (the emitted pairs or the error, the argument as the
caller sees it afterwards). -/
def joinRayFuturesIterRun (sched : List (List Nat)) (arg : FuturesArg α) :
    Except String (List (Nat × α)) × FuturesArg α :=
  match arg with
  | .nonList t =>
      (Except.error ("Parameters futures should be a list but " ++ t ++ " was given"),
       .nonList t)
  | .pyList l =>
      (Except.ok ((joinLoop (idToPositionMap (makeCopyAndEmptyGiven l).1) sched
          (makeCopyAndEmptyGiven l).1).1),
       .pyList (makeCopyAndEmptyGiven l).2)

/-- `join_ray_futures` with the caller-visible state made explicit: it sizes
`results` from the given list and drives `join_ray_futures_iter`, so it
inherits both the error on a non-list argument and the emptying side
effect. -/
def joinRayFuturesRun (sched : List (List Nat)) (arg : FuturesArg α) :
    Except String (List (Option α)) × FuturesArg α :=
  match arg with
  | .nonList t =>
      (Except.error ("Parameters futures should be a list but " ++ t ++ " was given"),
       .nonList t)
  | .pyList l =>
      (Except.ok (joinRayFutures sched l), .pyList (makeCopyAndEmptyGiven l).2)

/-- Following the claim C8 words, not the code: take every
`(position, value)` pair emitted by the lazy joiner and place each value at
its position in a list of length `n`. -/
def resultsFromEmittedPairs (n : Nat) (pairs : List (Nat × α)) : List (Option α) :=
  (List.range n).map fun i =>
    ((pairs.filter (fun p => p.1 == i)).getLast?).map Prod.snd

/-- The state of the Ray cluster that `ray` reports to `RayExecutor.run`:
whether `ray.is_initialized()` holds and the resource table that
`ray.available_resources()` returns (CPU capacities as counts). -/
structure RayCluster where
  initialized : Bool
  resources : List (String × Nat)
deriving DecidableEq, Repr

/-- Python `dict.get`: `ray.available_resources().get(key)`. -/
def RayCluster.availableResourcesGet (c : RayCluster) (key : String) : Option Nat :=
  (c.resources.find? (fun p => p.1 == key)).map Prod.snd

/-- The dispatch that `RayExecutor.run` hands to `super().run(...)`:
`workers` as discovered from the cluster and `multiprocess=True`. -/
structure RayRunDispatch where
  workers : Option Nat
  multiprocess : Bool
deriving DecidableEq, Repr

/-- `RayExecutor.run`: raises (here `Except.error`) when no Ray cluster is
initialized, before anything is dispatched; otherwise reads
`workers = ray.available_resources().get("CPU")` and dispatches
`super().run(workers=workers, multiprocess=True)`. -/
def RayExecutor.run (c : RayCluster) : Except String RayRunDispatch :=
  if !c.initialized then
    Except.error "Please initialize a Ray cluster before calling this method"
  else
    Except.ok { workers := c.availableResourcesGet "CPU", multiprocess := true }

/-- A Python value, enough of the datatypes to express truthiness:
`None`, booleans, integers, strings and lists. -/
inductive PyValue where
  | none
  | bool (b : Bool)
  | int (n : Int)
  | str (s : String)
  | list (l : List PyValue)

/-- Python truthiness, as `value or default` evaluates it: `None`, `False`,
`0`, the empty string and the empty container are falsy, everything else is
truthy. -/
def PyValue.truthy : PyValue → Bool
  | .none => false
  | .bool b => b
  | .int n => n != 0
  | .str s => s != ""
  | .list l => !l.isEmpty

/-- `InputTask`: `__init__` stores `self.value = value`. -/
structure InputTask where
  value : PyValue

/-- `InputTask.execute`: `return value or self.value`. The Python keyword
default for the `value` argument is `None`. -/
def InputTask.execute (t : InputTask) (value : PyValue := PyValue.none) : PyValue :=
  if value.truthy then value else t.value

/-- An `EOPatch` as the output task sees it: its named features. -/
structure EOPatch where
  features : List (String × PyValue)

/-- Modelled from the spec: `EOPatch.copy(features=f)` (the `EOPatch` class
lives in `eodata.py`, whose source file is not included) returns a shallow
copy of the patch containing only the features listed in `f`. -/
def EOPatch.copy (p : EOPatch) (fs : List String) : EOPatch :=
  ⟨p.features.filter (fun q => fs.contains q.1)⟩

/-- The data handed to `OutputTask.execute`: either an `EOPatch` or a value
of any other type. -/
inductive TaskData where
  | patch (p : EOPatch)
  | other (v : PyValue)

/-- `generate_uid` from `utilities/other.py`:
`f"{prefix}-{time_uid}-{random_uid}"`. The two hexadecimal strings that
`uuid` produces are taken as inputs. -/
def generate_uid (pre timeUid randomUid : String) : String :=
  pre ++ "-" ++ timeUid ++ "-" ++ randomUid

/-- `OutputTask`: the stored `self._name` and `self.features`. -/
structure OutputTask where
  _name : String
  features : List String

/-- `OutputTask.__init__`: `self._name = name or generate_uid("output")`.
A falsy `name` (Python `None` or the empty string) falls back to the
generated uid. -/
def OutputTask.make (name : Option String) (timeUid randomUid : String)
    (features : List String) : OutputTask :=
  ⟨match name with
    | some s => if s != "" then s else generate_uid "output" timeUid randomUid
    | none => generate_uid "output" timeUid randomUid,
   features⟩

/-- The `OutputTask.name` property: `return self._name`. -/
def OutputTask.name (t : OutputTask) : String :=
  t._name

/-- `OutputTask.execute`: an `EOPatch` is returned as
`data.copy(features=self.features)`, anything else is returned as is. -/
def OutputTask.execute (t : OutputTask) (data : TaskData) : TaskData :=
  match data with
  | .patch p => .patch (p.copy t.features)
  | .other v => .other v

/-! Helper lemmas about the identity map. -/

lemma idMapFrom_eq_none {α : Type} {k : Nat} {fs : List (RayFuture α)}
    (h : k ∉ fs.map (fun f => f.fid)) : ∀ n, idMapFrom n fs k = none := by
  induction fs with
  | nil => intro n; rfl
  | cons f fs ih =>
      intro n
      simp only [List.map_cons, List.mem_cons, not_or] at h
      simp [idMapFrom, ih h.2 (n + 1), Ne.symm h.1]

lemma idMapFrom_getElem {α : Type} {fs : List (RayFuture α)}
    (hnd : (fs.map (fun f => f.fid)).Nodup) :
    ∀ (n i : Nat) (h : i < fs.length), idMapFrom n fs (fs[i].fid) = some (n + i) := by
  induction fs with
  | nil => intro n i h; exact absurd h (by simp)
  | cons f fs ih =>
      simp only [List.map_cons, List.nodup_cons] at hnd
      intro n i h
      cases i with
      | zero =>
          simp [idMapFrom, idMapFrom_eq_none hnd.1 (n + 1)]
      | succ j =>
          have hj : j < fs.length := by simpa using h
          simp only [List.getElem_cons_succ]
          simp only [idMapFrom, ih hnd.2 (n + 1) j hj]
          congr 1
          omega

lemma idToPositionMap_getElem {α : Type} (fs : List (RayFuture α))
    (hnd : (fs.map (fun f => f.fid)).Nodup) (i : Nat) (h : i < fs.length) :
    idToPositionMap fs (fs[i].fid) = some i := by
  simpa using idMapFrom_getElem hnd 0 i h

/-! Helper lemmas about the polling loop. -/

lemma joinLoop_fst_perm {α : Type} (idMap : Nat → Option Nat) :
    ∀ (sched : List (List Nat)) (futs : List (RayFuture α)),
      (∀ f ∈ futs, ∃ s ∈ sched, f.fid ∈ s) →
      (joinLoop idMap sched futs).1.Perm
        (futs.map (fun f => ((idMap f.fid).getD 0, f.value))) := by
  intro sched
  induction sched with
  | nil =>
      intro futs hcomp
      cases futs with
      | nil => simp [joinLoop]
      | cons f fs =>
          rcases hcomp f (by simp) with ⟨s, hs, _⟩
          exact absurd hs (List.not_mem_nil s)
  | cons s rest ih =>
      intro futs hcomp
      cases futs with
      | nil => simp [joinLoop]
      | cons f fs =>
          have hcomp2 : ∀ g ∈ (f :: fs).filter (fun g => !decide (g.fid ∈ s)),
              ∃ t ∈ rest, g.fid ∈ t := by
            intro g hg
            rw [List.mem_filter] at hg
            rcases hcomp g hg.1 with ⟨t, ht, hgt⟩
            rcases List.mem_cons.mp ht with h1 | h1
            · exfalso
              have h2 := hg.2
              simp only [Bool.not_eq_eq_eq_not, Bool.not_true, decide_eq_false_iff_not] at h2
              exact h2 (h1 ▸ hgt)
            · exact ⟨t, h1, hgt⟩
          have e1 : (joinLoop idMap (s :: rest) (f :: fs)).1
              = (((f :: fs).filter (fun g => decide (g.fid ∈ s))).map
                  (fun g => ((idMap g.fid).getD 0, g.value)))
                ++ (joinLoop idMap rest
                    ((f :: fs).filter (fun g => !decide (g.fid ∈ s)))).1 := rfl
          rw [e1]
          refine List.Perm.trans (List.Perm.append_left _ (ih _ hcomp2)) ?_
          rw [← List.map_append]
          exact (List.filter_append_perm _ (f :: fs)).map _

lemma joinLoop_snd_eq_nil {α : Type} (idMap : Nat → Option Nat) :
    ∀ (sched : List (List Nat)) (futs : List (RayFuture α)),
      (∀ f ∈ futs, ∃ s ∈ sched, f.fid ∈ s) → (joinLoop idMap sched futs).2 = [] := by
  intro sched
  induction sched with
  | nil =>
      intro futs hcomp
      cases futs with
      | nil => rfl
      | cons f fs =>
          rcases hcomp f (by simp) with ⟨s, hs, _⟩
          exact absurd hs (List.not_mem_nil s)
  | cons s rest ih =>
      intro futs hcomp
      cases futs with
      | nil => rfl
      | cons f fs =>
          have hcomp2 : ∀ g ∈ (f :: fs).filter (fun g => !decide (g.fid ∈ s)),
              ∃ t ∈ rest, g.fid ∈ t := by
            intro g hg
            rw [List.mem_filter] at hg
            rcases hcomp g hg.1 with ⟨t, ht, hgt⟩
            rcases List.mem_cons.mp ht with h1 | h1
            · exfalso
              have h2 := hg.2
              simp only [Bool.not_eq_eq_eq_not, Bool.not_true, decide_eq_false_iff_not] at h2
              exact h2 (h1 ▸ hgt)
            · exact ⟨t, h1, hgt⟩
          exact ih _ hcomp2

lemma joinLoop_snd_sublist {α : Type} (idMap : Nat → Option Nat) :
    ∀ (sched : List (List Nat)) (futs : List (RayFuture α)),
      (joinLoop idMap sched futs).2.Sublist futs := by
  intro sched
  induction sched with
  | nil =>
      intro futs
      cases futs with
      | nil => exact List.Sublist.refl _
      | cons f fs => exact List.Sublist.refl _
  | cons s rest ih =>
      intro futs
      cases futs with
      | nil => exact List.Sublist.refl _
      | cons f fs =>
          exact List.Sublist.trans (ih ((f :: fs).filter (fun g => !decide (g.fid ∈ s))))
            (List.filter_sublist _)

/-! Helper lemmas about the emitted pairs of the lazy joiner. -/

lemma map_fst_emitted {α : Type} (futs : List (RayFuture α))
    (hnd : (futs.map (fun f => f.fid)).Nodup) :
    (futs.map (fun f => ((idToPositionMap futs f.fid).getD 0, f.value))).map Prod.fst
      = List.range futs.length := by
  rw [List.map_map]
  refine List.ext_getElem (by simp) ?_
  intro i h1 h2
  simp only [List.getElem_map, Function.comp_apply, List.getElem_range]
  rw [idToPositionMap_getElem futs hnd i (by simpa using h1)]
  rfl

lemma mem_emitted {α : Type} (futs : List (RayFuture α))
    (hnd : (futs.map (fun f => f.fid)).Nodup) (i : Nat) (h : i < futs.length) :
    (i, futs[i].value)
      ∈ futs.map (fun f => ((idToPositionMap futs f.fid).getD 0, f.value)) := by
  refine List.mem_map.mpr ⟨futs[i], List.getElem_mem h, ?_⟩
  show ((idToPositionMap futs (futs[i].fid)).getD 0, futs[i].value) = (i, futs[i].value)
  rw [idToPositionMap_getElem futs hnd i h]
  rfl

lemma joinRayFuturesIter_perm {α : Type} (sched : List (List Nat))
    (futs : List (RayFuture α)) (hcomp : ∀ f ∈ futs, ∃ s ∈ sched, f.fid ∈ s) :
    (joinRayFuturesIter sched futs).Perm
      (futs.map (fun f => ((idToPositionMap futs f.fid).getD 0, f.value))) :=
  joinLoop_fst_perm _ sched futs hcomp

lemma joinRayFuturesIter_length {α : Type} (sched : List (List Nat))
    (futs : List (RayFuture α)) (hcomp : ∀ f ∈ futs, ∃ s ∈ sched, f.fid ∈ s) :
    (joinRayFuturesIter sched futs).length = futs.length := by
  rw [(joinRayFuturesIter_perm sched futs hcomp).length_eq, List.length_map]

lemma joinRayFuturesIter_fst_nodup {α : Type} (sched : List (List Nat))
    (futs : List (RayFuture α)) (hnd : (futs.map (fun f => f.fid)).Nodup)
    (hcomp : ∀ f ∈ futs, ∃ s ∈ sched, f.fid ∈ s) :
    ((joinRayFuturesIter sched futs).map Prod.fst).Nodup := by
  have hp : ((futs.map
      (fun f => ((idToPositionMap futs f.fid).getD 0, f.value))).map Prod.fst).Nodup := by
    rw [map_fst_emitted futs hnd]
    exact List.nodup_range _
  exact List.Perm.nodup ((joinRayFuturesIter_perm sched futs hcomp).map Prod.fst).symm hp

lemma joinRayFuturesIter_mem {α : Type} (sched : List (List Nat))
    (futs : List (RayFuture α)) (hnd : (futs.map (fun f => f.fid)).Nodup)
    (hcomp : ∀ f ∈ futs, ∃ s ∈ sched, f.fid ∈ s) (i : Nat) (h : i < futs.length) :
    (i, futs[i].value) ∈ joinRayFuturesIter sched futs :=
  ((joinRayFuturesIter_perm sched futs hcomp).mem_iff).mpr
    (mem_emitted futs hnd i h)

/-! Helper lemmas about writing the emitted pairs into the result list. -/

lemma foldl_set_length {α : Type} :
    ∀ (pairs : List (Nat × α)) (res : List (Option α)),
      (pairs.foldl (fun r p => r.set p.1 (some p.2)) res).length = res.length := by
  intro pairs
  induction pairs with
  | nil => intro res; rfl
  | cons q qs ih => intro res; rw [List.foldl_cons, ih, List.length_set]

lemma foldl_set_getElem?_not_mem {α : Type} :
    ∀ (pairs : List (Nat × α)) (res : List (Option α)) (i : Nat),
      i ∉ pairs.map Prod.fst →
      (pairs.foldl (fun r p => r.set p.1 (some p.2)) res)[i]? = res[i]? := by
  intro pairs
  induction pairs with
  | nil => intro res i _; rfl
  | cons q qs ih =>
      intro res i hi
      simp only [List.map_cons, List.mem_cons, not_or] at hi
      rw [List.foldl_cons, ih _ i hi.2, List.getElem?_set_ne (fun hh => hi.1 hh.symm)]

lemma foldl_set_getElem?_mem {α : Type} :
    ∀ (pairs : List (Nat × α)) (res : List (Option α)) (i : Nat) (v : α),
      (i, v) ∈ pairs → (pairs.map Prod.fst).Nodup → i < res.length →
      (pairs.foldl (fun r p => r.set p.1 (some p.2)) res)[i]? = some (some v) := by
  intro pairs
  induction pairs with
  | nil => intro res i v hm _ _; exact absurd hm (List.not_mem_nil _)
  | cons q qs ih =>
      intro res i v hm hnd hlt
      simp only [List.map_cons, List.nodup_cons] at hnd
      rw [List.foldl_cons]
      rcases List.mem_cons.mp hm with h1 | h1
      · have hq : q = (i, v) := h1.symm
        subst hq
        rw [foldl_set_getElem?_not_mem qs _ i hnd.1]
        exact List.getElem?_set_self (by simpa using hlt)
      · exact ih _ i v h1 hnd.2 (by rw [List.length_set]; exact hlt)

lemma joinRayFutures_eq_map {α : Type} (sched : List (List Nat))
    (futs : List (RayFuture α)) (hnd : (futs.map (fun f => f.fid)).Nodup)
    (hcomp : ∀ f ∈ futs, ∃ s ∈ sched, f.fid ∈ s) :
    joinRayFutures sched futs = futs.map (fun f => some f.value) := by
  refine List.ext_getElem? ?_
  intro i
  by_cases h : i < futs.length
  · rw [joinRayFutures]
    rw [foldl_set_getElem?_mem _ _ i futs[i].value
      (joinRayFuturesIter_mem sched futs hnd hcomp i h)
      (joinRayFuturesIter_fst_nodup sched futs hnd hcomp)
      (by rw [List.length_replicate]; exact h)]
    rw [List.getElem?_map, List.getElem?_eq_getElem h]
    rfl
  · have h1 : (joinRayFutures sched futs)[i]? = none := by
      refine List.getElem?_eq_none ?_
      rw [joinRayFutures, foldl_set_length, List.length_replicate]
      omega
    have h2 : (futs.map (fun f => some f.value))[i]? = none := by
      refine List.getElem?_eq_none ?_
      rw [List.length_map]
      omega
    rw [h1, h2]

/-! Helper lemmas for comparing the eager joiner with the claim-level
placement of the emitted pairs. -/

lemma filter_fst_eq_singleton {β : Type} :
    ∀ (l : List (Nat × β)) (i : Nat) (v : β),
      (i, v) ∈ l → (l.map Prod.fst).Nodup →
      l.filter (fun p => p.1 == i) = [(i, v)] := by
  intro l
  induction l with
  | nil => intro i v hm _; exact absurd hm (List.not_mem_nil _)
  | cons q qs ih =>
      intro i v hm hnd
      simp only [List.map_cons, List.nodup_cons] at hnd
      rcases List.mem_cons.mp hm with h1 | h1
      · have hq : q = (i, v) := h1.symm
        subst hq
        rw [List.filter_cons_of_pos (p := fun p : Nat × β => p.1 == i) (by simp)]
        have he : qs.filter (fun p => p.1 == i) = [] := by
          rw [List.filter_eq_nil_iff]
          intro p hp
          simp only [beq_iff_eq]
          intro hpe
          have hmem : p.1 ∈ qs.map Prod.fst := List.mem_map_of_mem Prod.fst hp
          rw [hpe] at hmem
          exact hnd.1 hmem
        rw [he]
      · have hi : i ∈ qs.map Prod.fst := List.mem_map_of_mem Prod.fst h1
        have hq : ¬ (q.1 == i) = true := by
          simp only [beq_iff_eq]
          intro he
          exact hnd.1 (he ▸ hi)
        rw [List.filter_cons_of_neg (p := fun p : Nat × β => p.1 == i) hq]
        exact ih i v h1 hnd.2

lemma resultsFromEmittedPairs_eq {α : Type} (sched : List (List Nat))
    (futs : List (RayFuture α)) (hnd : (futs.map (fun f => f.fid)).Nodup)
    (hcomp : ∀ f ∈ futs, ∃ s ∈ sched, f.fid ∈ s) :
    resultsFromEmittedPairs futs.length (joinRayFuturesIter sched futs)
      = futs.map (fun f => some f.value) := by
  refine List.ext_getElem (by simp [resultsFromEmittedPairs]) ?_
  intro i h1 h2
  have hi : i < futs.length := by simpa using h2
  simp only [resultsFromEmittedPairs, List.getElem_map, List.getElem_range]
  rw [filter_fst_eq_singleton _ i futs[i].value
    (joinRayFuturesIter_mem sched futs hnd hcomp i hi)
    (joinRayFuturesIter_fst_nodup sched futs hnd hcomp)]
  rfl

/-! The concrete example used by the witnesses: three futures with
identities 10, 11, 12 carrying values 100, 200, 300; the cluster reports
future 12 done in the first poll cycle, 10 and 11 in the second. -/

def futsC : List (RayFuture Nat) :=
  [⟨10, 100⟩, ⟨11, 200⟩, ⟨12, 300⟩]

def schedC : List (List Nat) :=
  [[12], [10, 11]]

/-- C1: for every list of N futures given to the eager join
`join_ray_futures`, regardless of the order in which the schedule completes
them (futures are distinct Python objects, and every future eventually
completes), the call returns a list of exactly N results in which the result
at index i is the value produced by the i-th future of the input list. -/
theorem join_ray_futures_aligned {α : Type} (sched : List (List Nat))
    (futs : List (RayFuture α)) (hnd : (futs.map (fun f => f.fid)).Nodup)
    (hcomp : ∀ f ∈ futs, ∃ s ∈ sched, f.fid ∈ s) :
    joinRayFutures sched futs = futs.map (fun f => some f.value)
    ∧ (joinRayFutures sched futs).length = futs.length := by
  refine ⟨joinRayFutures_eq_map sched futs hnd hcomp, ?_⟩
  rw [joinRayFutures_eq_map sched futs hnd hcomp, List.length_map]

/-- C1 witness: three futures completing out of order (the third resolves
first); the eager join realigns the values to the input positions. -/
theorem join_ray_futures_aligned_witness :
    joinRayFutures schedC futsC = futsC.map (fun f => some f.value)
    ∧ (joinRayFutures schedC futsC).length = futsC.length :=
  join_ray_futures_aligned schedC futsC (by decide) (by decide)

/-- C2: for every list of N futures, the lazy joiner
`join_ray_futures_iter` emits exactly N pairs, emits no position twice,
emits for each future the position it held in the input list (through the
identity map), and its loop stops only once the tracked list of futures has
been fully consumed. -/
theorem join_ray_futures_iter_exact {α : Type} (sched : List (List Nat))
    (futs : List (RayFuture α)) (hnd : (futs.map (fun f => f.fid)).Nodup)
    (hcomp : ∀ f ∈ futs, ∃ s ∈ sched, f.fid ∈ s) :
    (joinRayFuturesIter sched futs).length = futs.length
    ∧ ((joinRayFuturesIter sched futs).map Prod.fst).Nodup
    ∧ (∀ (i : Nat) (h : i < futs.length),
        (i, futs[i].value) ∈ joinRayFuturesIter sched futs)
    ∧ (joinLoop (idToPositionMap futs) sched futs).2 = [] :=
  ⟨joinRayFuturesIter_length sched futs hcomp,
   joinRayFuturesIter_fst_nodup sched futs hnd hcomp,
   fun i h => joinRayFuturesIter_mem sched futs hnd hcomp i h,
   joinLoop_snd_eq_nil _ sched futs hcomp⟩

/-- C2 witness: the lazy joiner on the concrete example. -/
theorem join_ray_futures_iter_exact_witness :
    (joinRayFuturesIter schedC futsC).length = futsC.length
    ∧ ((joinRayFuturesIter schedC futsC).map Prod.fst).Nodup
    ∧ (∀ (i : Nat) (h : i < futsC.length),
        (i, futsC[i].value) ∈ joinRayFuturesIter schedC futsC)
    ∧ (joinLoop (idToPositionMap futsC) schedC futsC).2 = [] :=
  join_ray_futures_iter_exact schedC futsC (by decide) (by decide)

/-- C3: both joiner entry points consume the callers futures list: after
the call the callers list object is empty, and the produced results are the
pure function of the original list contents, so no other caller-visible
state is touched. -/
theorem joiners_consume_callers_list {α : Type} (sched : List (List Nat))
    (l : List (RayFuture α)) :
    (joinRayFuturesIterRun sched (FuturesArg.pyList l)).2 = FuturesArg.pyList []
    ∧ (joinRayFuturesRun sched (FuturesArg.pyList l)).2 = FuturesArg.pyList []
    ∧ (joinRayFuturesIterRun sched (FuturesArg.pyList l)).1
        = Except.ok (joinRayFuturesIter sched l)
    ∧ (joinRayFuturesRun sched (FuturesArg.pyList l)).1
        = Except.ok (joinRayFutures sched l) :=
  ⟨rfl, rfl, rfl, rfl⟩

/-- C4: `RayExecutor.run` on an uninitialized cluster raises before
dispatching anything; on an initialized cluster it discovers the worker
count from the reported CPU capacity and dispatches with
`multiprocess=True`. -/
theorem ray_executor_run_requires_cluster (c : RayCluster) :
    (c.initialized = false →
      RayExecutor.run c
        = Except.error "Please initialize a Ray cluster before calling this method")
    ∧ (c.initialized = true →
      RayExecutor.run c
        = Except.ok ⟨c.availableResourcesGet "CPU", true⟩) := by
  constructor
  · intro h
    simp [RayExecutor.run, h]
  · intro h
    simp [RayExecutor.run, h]

/-- C4 witness: an uninitialized cluster errors; an initialized cluster
reporting 4 CPUs dispatches with 4 workers. -/
theorem ray_executor_run_requires_cluster_witness :
    RayExecutor.run ⟨false, [("CPU", 4)]⟩
      = Except.error "Please initialize a Ray cluster before calling this method"
    ∧ RayExecutor.run ⟨true, [("CPU", 4)]⟩ = Except.ok ⟨some 4, true⟩ :=
  ⟨(ray_executor_run_requires_cluster ⟨false, [("CPU", 4)]⟩).1 rfl,
   ((ray_executor_run_requires_cluster ⟨true, [("CPU", 4)]⟩).2 rfl).trans (by rfl)⟩

/-- C5: `InputTask.execute` returns the stored default for every falsy
override, returns the override itself for every truthy override, and
returns the default when called with no override (the Python default for
the keyword argument is `None`). -/
theorem input_task_execute_override (v o : PyValue) :
    (o.truthy = false → InputTask.execute ⟨v⟩ o = v)
    ∧ (o.truthy = true → InputTask.execute ⟨v⟩ o = o)
    ∧ InputTask.execute ⟨v⟩ PyValue.none = v := by
  refine ⟨?_, ?_, ?_⟩
  · intro h
    simp [InputTask.execute, h]
  · intro h
    simp [InputTask.execute, h]
  · rfl

/-- C5 witness: the zero override (falsy) falls back to the default, a
nonzero override (truthy) is returned itself. -/
theorem input_task_execute_override_witness :
    InputTask.execute ⟨PyValue.str "default"⟩ (PyValue.int 0) = PyValue.str "default"
    ∧ InputTask.execute ⟨PyValue.str "default"⟩ (PyValue.int 5) = PyValue.int 5 :=
  ⟨(input_task_execute_override (PyValue.str "default") (PyValue.int 0)).1 rfl,
   (input_task_execute_override (PyValue.str "default") (PyValue.int 5)).2.1 rfl⟩

/-- C6: `OutputTask.execute` on an `EOPatch` returns a copy holding exactly
the features of the patch whose name is in the configured collection, and
on any non-`EOPatch` value returns that value itself. -/
theorem output_task_execute_copy_filter (nm : String) (fs : List String) :
    (∀ p : EOPatch, ∃ q : EOPatch,
        OutputTask.execute ⟨nm, fs⟩ (TaskData.patch p) = TaskData.patch q
        ∧ ∀ kv : String × PyValue, kv ∈ q.features ↔ kv ∈ p.features ∧ kv.1 ∈ fs)
    ∧ (∀ v : PyValue, OutputTask.execute ⟨nm, fs⟩ (TaskData.other v) = TaskData.other v) := by
  constructor
  · intro p
    refine ⟨p.copy fs, rfl, ?_⟩
    intro kv
    simp [EOPatch.copy, List.mem_filter]
  · intro v
    rfl

/-- C7: the polling loop terminates under the hypothesis that every future
is eventually reported done by some bounded wait: the tracked list is empty
at the end of the schedule; it is always a sublist of the input (never
grows); each cycle keeps exactly the futures not reported done; and with an
empty tracked list the loop exits at once, whatever schedule remains. -/
theorem joiner_polling_loop_terminates {α : Type} (idMap : Nat → Option Nat)
    (sched : List (List Nat)) (futs : List (RayFuture α))
    (hcomp : ∀ f ∈ futs, ∃ s ∈ sched, f.fid ∈ s) :
    (joinLoop idMap sched futs).2 = []
    ∧ (∀ (sched2 : List (List Nat)) (futs2 : List (RayFuture α)),
        ((joinLoop idMap sched2 futs2).2).Sublist futs2)
    ∧ (∀ (s : List Nat) (rest : List (List Nat)) (g : RayFuture α)
        (gs : List (RayFuture α)),
        (joinLoop idMap (s :: rest) (g :: gs)).2
          = (joinLoop idMap rest ((g :: gs).filter (fun x => !decide (x.fid ∈ s)))).2)
    ∧ (∀ (sched2 : List (List Nat)),
        (joinLoop idMap sched2 ([] : List (RayFuture α))).2 = []) := by
  refine ⟨joinLoop_snd_eq_nil idMap sched futs hcomp,
    fun sched2 futs2 => joinLoop_snd_sublist idMap sched2 futs2, ?_, ?_⟩
  · intro s rest g gs
    rfl
  · intro sched2
    cases sched2 <;> rfl

/-- C7 witness: the loop on the concrete example empties its tracked list. -/
theorem joiner_polling_loop_terminates_witness :
    (joinLoop (idToPositionMap futsC) schedC futsC).2 = [] :=
  (joiner_polling_loop_terminates (idToPositionMap futsC) schedC futsC (by decide)).1

/-- C8: the eager joiner refines the lazy one: its result list equals the
list obtained by taking every (position, value) pair emitted by the lazy
joiner on the same input and placing each value at its position. -/
theorem eager_join_refines_lazy_join {α : Type} (sched : List (List Nat))
    (futs : List (RayFuture α)) (hnd : (futs.map (fun f => f.fid)).Nodup)
    (hcomp : ∀ f ∈ futs, ∃ s ∈ sched, f.fid ∈ s) :
    joinRayFutures sched futs
      = resultsFromEmittedPairs futs.length (joinRayFuturesIter sched futs) :=
  (joinRayFutures_eq_map sched futs hnd hcomp).trans
    (resultsFromEmittedPairs_eq sched futs hnd hcomp).symm

/-- C8 witness: the refinement on the concrete example. -/
theorem eager_join_refines_lazy_join_witness :
    joinRayFutures schedC futsC
      = resultsFromEmittedPairs futsC.length (joinRayFuturesIter schedC futsC) :=
  eager_join_refines_lazy_join schedC futsC (by decide) (by decide)

/-- C9: on an argument that is not a list, `join_ray_futures_iter` raises a
`ValueError` (the error value here) uniformly in the schedule, so before
waiting on or consuming any future, and the argument is left unmodified. -/
theorem join_iter_non_list_value_error {α : Type} (sched : List (List Nat))
    (t : String) :
    joinRayFuturesIterRun (α := α) sched (FuturesArg.nonList t)
      = (Except.error ("Parameters futures should be a list but " ++ t ++ " was given"),
         FuturesArg.nonList t) :=
  rfl

/-- C10: an `OutputTask` constructed with a truthy name keeps that name; a
falsy name (Python `None` or the empty string) yields a generated name of
the form `output-...`; and the `name` property always reads the one string
stored at construction. -/
theorem output_task_name_fixed (timeUid randomUid : String) (fs : List String) :
    (∀ s : String, s ≠ "" →
      (OutputTask.make (some s) timeUid randomUid fs).name = s)
    ∧ (OutputTask.make none timeUid randomUid fs).name
        = "output-" ++ (timeUid ++ "-" ++ randomUid)
    ∧ (OutputTask.make (some "") timeUid randomUid fs).name
        = "output-" ++ (timeUid ++ "-" ++ randomUid)
    ∧ (∀ t : OutputTask, t.name = t._name) := by
  have h1 : ("output-" : String) = "output" ++ "-" := by decide
  refine ⟨?_, ?_, ?_, fun t => rfl⟩
  · intro s hs
    simp [OutputTask.make, OutputTask.name, hs]
  · show generate_uid "output" timeUid randomUid = _
    rw [generate_uid, h1]
    simp [String.append_assoc]
  · show (if ("" != "") = true then "" else generate_uid "output" timeUid randomUid) = _
    rw [if_neg (by decide)]
    show generate_uid "output" timeUid randomUid = _
    rw [generate_uid, h1]
    simp [String.append_assoc]

/-- C10 witness: concrete uid strings. -/
theorem output_task_name_fixed_witness :
    (OutputTask.make (some "results") "0a1b" "2c3d" []).name = "results"
    ∧ (OutputTask.make none "0a1b" "2c3d" []).name = "output-" ++ ("0a1b" ++ "-" ++ "2c3d") :=
  ⟨(output_task_name_fixed "0a1b" "2c3d" []).1 "results" (by decide),
   (output_task_name_fixed "0a1b" "2c3d" []).2.1⟩

end EOLearn
